import Mathlib

/-!
Shallow embedding of the cortical reactive-lobe-network library.

The source lives in `src/lib.rs` (the `Protocol` / `Effector` / `Cerebrum` /
`LobeWrapper` / `Cortex` layer) and `src/organelle.rs` (`Organelle::connect`).

Modelling conventions:
* `uuid::Uuid` handles are natural numbers; `Uuid::new_v4()` is modelled by a
  fresh-value supply, so that distinctness of supplied values stands in for
  the negligible-collision guarantee of v4 uuids.
* `mpsc` channels are named by numeric channel identifiers.  Every sender
  closure built by `lib.rs` is an enqueue onto exactly one channel, possibly
  behind message conversions (`Cerebrum::add_lobe`, `Cortex::init`,
  `Protocol::convert_protocol`), so for the state-level model an effector is
  defunctionalised to its owning handle plus its target channel (`CEffector`).
  For the conversion-layer claims the sender is kept as a genuine function
  over the channel-borne events (`Effector`, `FProtocol` below).
* child lobes are arbitrary user code behind the `Lobe` trait; a node is
  observed through the protocol events that `update` delivers to it, so a
  `Box<Node<M>>` is modelled as the log of events it has received, and
  `node.update(msg)` appends `msg` to the log.
* Rust panics (`unwrap`, `unreachable!`, `unimplemented!`) are modelled as
  `none` / `Option`-valued results.
-/

namespace Cortical

/-- `Handle` (`lib.rs:36`): an opaque unique identifier, modelled as `Nat`. -/
abbrev Handle := Nat

/-- identifier naming one `mpsc` channel created by the program. -/
abbrev ChannelId := Nat

/-- defunctionalised `Effector<M>` (`lib.rs:138-142`): the owning handle plus
the channel its `sender` closure enqueues onto.  The `reactor` handle carries
no routing-relevant state. -/
structure CEffector where
  handle : Handle
  chan : ChannelId
deriving DecidableEq, Repr

/-- `Protocol<M>` (`lib.rs:66-85`) with the effector defunctionalised. -/
inductive CProtocol (M : Type) where
  | Init (eff : CEffector)
  | AddInput (h : Handle)
  | AddOutput (h : Handle)
  | Start
  | Payload (src dest : Handle) (m : M)
  | Message (src : Handle) (m : M)
  | Stop
deriving DecidableEq, Repr

/-- a `Box<Node<M>>` observed through the events `update` has delivered to
it, newest last. -/
abbrev NodeLog (M : Type) := List (CProtocol M)

/-- `HashMap::get` on the association-list model of a registry (keys of a
`HashMap` are distinct; lookups return the first matching entry). -/
def alookup {A : Type} : List (Handle × A) → Handle → Option A
  | [], _ => none
  | (k, v) :: rest, h => if h = k then some v else alookup rest h

/-- `map.get_mut(&dest).unwrap().update(e)` on the association-list model:
append `e` to the log of the first entry whose key is `dest`. -/
def logAppend {M : Type} : List (Handle × NodeLog M) → Handle → CProtocol M →
    List (Handle × NodeLog M)
  | [], _, _ => []
  | (k, log) :: rest, dest, e =>
    if dest = k then (k, log ++ [e]) :: rest else (k, log) :: logAppend rest dest e

/-- `CortexNodePool<M>` (`lib.rs:312-320`): the composite's child registry,
with `misc` (the interior `HashMap`) as an association list. -/
structure CortexNodePool (M : Type) where
  input_hdl : Handle
  output_hdl : Handle
  input : NodeLog M
  output : NodeLog M
  misc : List (Handle × NodeLog M)
deriving DecidableEq, Repr

/-- `Protocol::convert_protocol` (`lib.rs:87-130`) on the defunctionalised
protocol: the payload of `Payload` / `Message` is converted with `f`
(`msg.into()`); every other field is copied unchanged.  Wrapping the `Init`
effector's sender closure composes a conversion in front of the same channel
enqueue, so in the defunctionalised model the effector (handle and target
channel) is unchanged; the function-level model `FProtocol.convert_protocol`
below records the wrapping itself. -/
def CProtocol.convert {M T : Type} (f : M → T) : CProtocol M → CProtocol T
  | .Init eff => .Init eff
  | .AddInput h => .AddInput h
  | .AddOutput h => .AddOutput h
  | .Start => .Start
  | .Payload src dest m => .Payload src dest (f m)
  | .Message src m => .Message src (f m)
  | .Stop => .Stop

/-- the `actual_src` computation inside `Cortex::forward` (`lib.rs:562-585`):
if `src` is the output child's handle, present the output child's own handle
when `dest` is known internally and the cortex's handle otherwise; any other
`src` is passed through unchanged. -/
def actual_src {M : Type} (cortex : Handle) (nodes : CortexNodePool M)
    (src dest : Handle) : Handle :=
  if src = nodes.output_hdl then
    if dest = nodes.input_hdl ∨ dest = nodes.output_hdl ∨
        (alookup nodes.misc dest).isSome then
      nodes.output_hdl
    else
      cortex
  else
    src

/-- `Cortex::forward` (`lib.rs:550-612`).  The state effects are returned
explicitly: the updated pool (synchronous child `update` calls) and the list
of events handed to the parent's `sender` closure (whose message type is `T`,
reached through `Protocol::<T>::convert_protocol`).  `none` models the
`unimplemented!()` arm. -/
def forward {M T : Type} (cortex : Handle) (nodes : CortexNodePool M) (f : M → T) :
    CProtocol M → Option (CortexNodePool M × List (CProtocol T))
  | .Payload src dest m =>
    let asrc := actual_src cortex nodes src dest
    if dest = nodes.input_hdl then
      some ({ nodes with input := nodes.input ++ [.Message asrc m] }, [])
    else if dest = nodes.output_hdl then
      some ({ nodes with output := nodes.output ++ [.Message asrc m] }, [])
    else if (alookup nodes.misc dest).isSome then
      some ({ nodes with misc := logAppend nodes.misc dest (.Message asrc m) }, [])
    else
      some (nodes, [CProtocol.convert f (.Payload asrc dest m)])
  | .Stop => some (nodes, [.Stop])
  | _ => none

/-- `Cortex<M>` (`lib.rs:322-330`); the single-threaded `Rc<RefCell<..>>`
around the pool is modelled by plain ownership. -/
structure Cortex (M : Type) where
  effector : Option CEffector
  input_hdl : Handle
  output_hdl : Handle
  connections : List (Handle × Handle)
  nodes : CortexNodePool M
deriving DecidableEq, Repr

/-- `Cortex::connect` (`lib.rs:392-394`): push the edge onto `connections`;
there is no check that either handle is known to the cortex. -/
def Cortex.connect {M : Type} (c : Cortex M) (input output : Handle) : Cortex M :=
  { c with connections := c.connections ++ [(input, output)] }

/-- `Cortex::update_node` (`lib.rs:406-418`); `none` is the panic of
`misc.get_mut(&hdl).unwrap()` on a handle that is neither `input_hdl`,
`output_hdl`, nor an interior key. -/
def updateNode {M : Type} (nodes : CortexNodePool M) (hdl : Handle)
    (msg : CProtocol M) : Option (CortexNodePool M) :=
  if hdl = nodes.input_hdl then
    some { nodes with input := nodes.input ++ [msg] }
  else if hdl = nodes.output_hdl then
    some { nodes with output := nodes.output ++ [msg] }
  else
    match alookup nodes.misc hdl with
    | some _ => some { nodes with misc := logAppend nodes.misc hdl msg }
    | none => none

/-- a handle is known to the pool: it is the input handle, the output handle,
or an interior key (the test used by `actual_src` and `update_node`). -/
def knownHandle {M : Type} (nodes : CortexNodePool M) (h : Handle) : Bool :=
  if h = nodes.input_hdl then true
  else if h = nodes.output_hdl then true
  else (alookup nodes.misc h).isSome

/-- the interior-child loop of `Cortex::init` (`lib.rs:483-493`): every
`misc` node is updated with `Init` carrying a FRESH handle
(`Handle::new_v4()`, modelled by successive values of the supply `freshH`)
and the internal channel — not the handle the child is registered under. -/
def miscInit {M : Type} (freshH : Handle) (chan : ChannelId) :
    List (Handle × NodeLog M) → List (Handle × NodeLog M)
  | [] => []
  | (k, log) :: rest =>
    (k, log ++ [CProtocol.Init ⟨freshH, chan⟩]) :: miscInit (freshH + 1) chan rest

/-- the wiring loop of `Cortex::init` (`lib.rs:495-498`): each recorded
connection is applied as `AddOutput` to its input side and `AddInput` to its
output side, through `update_node` (which panics on unknown handles). -/
def applyConnections {M : Type} (nodes : CortexNodePool M) :
    List (Handle × Handle) → Option (CortexNodePool M)
  | [] => some nodes
  | (input, output) :: rest => do
    let n1 ← updateNode nodes input (.AddOutput output)
    let n2 ← updateNode n1 output (.AddInput input)
    applyConnections n2 rest

/-- `Cortex::init` (`lib.rs:420-521`): create the internal channel `freshC`,
install the cortex's own effector (cortex handle, internal channel),
re-`Init` the input and output children bound to their own handles over the
internal channel, `Init` every interior child with a fresh handle over the
internal channel, then apply the recorded connections.  The spawned
forwarding stream over the internal channel is modelled separately by
`forward`. -/
def Cortex.init {M : Type} (freshH : Handle) (freshC : ChannelId) (c : Cortex M)
    (eff : CEffector) : Option (Cortex M) := do
  let cortex_hdl := eff.handle
  let n1 ← updateNode c.nodes c.input_hdl (.Init ⟨c.input_hdl, freshC⟩)
  let n2 ← updateNode n1 c.output_hdl (.Init ⟨c.output_hdl, freshC⟩)
  let n3 := { n2 with misc := miscInit freshH freshC n2.misc }
  let n4 ← applyConnections n3 c.connections
  some { c with effector := some ⟨cortex_hdl, freshC⟩, nodes := n4 }

/-- `Cortex::start` (`lib.rs:523-536`): deliver `Start` to the input child,
the output child, and every interior child. -/
def Cortex.start {M : Type} (c : Cortex M) : Cortex M :=
  { c with nodes :=
    { c.nodes with
      input := c.nodes.input ++ [CProtocol.Start]
      output := c.nodes.output ++ [CProtocol.Start]
      misc := c.nodes.misc.map (fun p => (p.1, p.2 ++ [CProtocol.Start])) } }

/-- `Cortex::add_input` (`lib.rs:538-542`). -/
def Cortex.add_input {M : Type} (c : Cortex M) (input : Handle) : Cortex M :=
  { c with nodes := { c.nodes with input := c.nodes.input ++ [CProtocol.AddInput input] } }

/-- `Cortex::add_output` (`lib.rs:544-548`). -/
def Cortex.add_output {M : Type} (c : Cortex M) (output : Handle) : Cortex M :=
  { c with nodes := { c.nodes with output := c.nodes.output ++ [CProtocol.AddOutput output] } }

/-- `impl Lobe<M> for Cortex<M>` (`lib.rs:615-636`): dispatch on the event;
`none` is the `unreachable!()` arm, reached by `Payload` and `Stop`.
`freshH` / `freshC` feed the fresh handle and channel supply of `init`. -/
def Cortex.update {M : Type} (freshH : Handle) (freshC : ChannelId) (c : Cortex M) :
    CProtocol M → Option (Cortex M)
  | .Init eff => c.init freshH freshC eff
  | .AddInput input => some (c.add_input input)
  | .AddOutput output => some (c.add_output output)
  | .Start => some c.start
  | .Message src m =>
    (updateNode c.nodes c.input_hdl (.Message src m)).map fun n => { c with nodes := n }
  | _ => none

/-- `Cerebrum<M>` (`lib.rs:47-53`): the top-level node registry; the channel
pair is modelled by the queue of events handed to `run`. -/
structure Cerebrum (M : Type) where
  nodes : List (Handle × NodeLog M)
deriving DecidableEq, Repr

/-- the `take_while` / `for_each` event loop of `Cerebrum::run`
(`lib.rs:239-261`): consume the queue up to (and not past) the first `Stop`;
each `Payload` is delivered to the node registered under `dest` as
`Message(src, msg)`; an unknown `dest` panics (`nodes.get_mut(&dest).unwrap()`,
modelled `none`), and any other event is `unreachable!()` (also `none`). -/
def runLoop {M : Type} (nodes : List (Handle × NodeLog M)) :
    List (CProtocol M) → Option (List (Handle × NodeLog M))
  | [] => some nodes
  | .Stop :: _ => some nodes
  | .Payload src dest m :: rest =>
    match alookup nodes dest with
    | some _ => runLoop (logAppend nodes dest (.Message src m)) rest
    | none => none
  | _ :: _ => none

/-- `Cerebrum::run` (`lib.rs:232-272`): deliver `Start` to every registered
node, then run the event loop over the queued events.  `some` is `Ok(())`
together with the final registry; `none` is a panic. -/
def Cerebrum.run {M : Type} (c : Cerebrum M) (queue : List (CProtocol M)) :
    Option (List (Handle × NodeLog M)) :=
  runLoop (c.nodes.map (fun p => (p.1, p.2 ++ [CProtocol.Start]))) queue

/-- an event the driver's loop can deliver without panicking: a `Payload`
whose destination is registered. -/
def knownPayload {M : Type} (nodes : List (Handle × NodeLog M)) :
    CProtocol M → Bool
  | .Payload _ dest _ => (alookup nodes dest).isSome
  | _ => false

/-- the `Message` events the driver's loop delivers to the node registered
under `h` while processing the given queue segment. -/
def deliveries {M : Type} (h : Handle) : List (CProtocol M) → List (CProtocol M)
  | [] => []
  | CProtocol.Payload src dest m :: rest =>
    if dest = h then CProtocol.Message src m :: deliveries h rest else deliveries h rest
  | _ :: rest => deliveries h rest

/-- the cumulative registry effect of delivering a queue segment. -/
def applyEvents {M : Type} (nodes : List (Handle × NodeLog M)) :
    List (CProtocol M) → List (Handle × NodeLog M)
  | [] => nodes
  | CProtocol.Payload src dest m :: rest =>
    applyEvents (logAppend nodes dest (.Message src m)) rest
  | _ :: rest => applyEvents nodes rest

/-- the channel-borne fragment of `Protocol<M>`: the events that are ever
passed to a `sender` closure or drawn from an `mpsc` channel in `lib.rs`
(`Effector::send` and `Cortex::forward` produce `Payload`, `Effector::stop`
and `Cortex::forward` produce `Stop`; `Init` never travels on a channel, its
effector is handed over by a direct `update` call). -/
inductive Wire (M : Type) where
  | AddInput (h : Handle)
  | AddOutput (h : Handle)
  | Start
  | Payload (src dest : Handle) (m : M)
  | Message (src : Handle) (m : M)
  | Stop
deriving DecidableEq, Repr

/-- `convert_protocol`'s action on the channel-borne events: `msg.into()` on
the payload, all other fields unchanged. -/
def Wire.convert {M T : Type} (f : M → T) : Wire M → Wire T
  | .AddInput h => .AddInput h
  | .AddOutput h => .AddOutput h
  | .Start => .Start
  | .Payload src dest m => .Payload src dest (f m)
  | .Message src m => .Message src (f m)
  | .Stop => .Stop

/-- `Effector<M>` (`lib.rs:138-142`) with the sender kept as a function over
the channel-borne events; `α` is the abstract effect of one enqueue (the
`reactor.spawn` of the send). -/
structure Effector (α M : Type) where
  handle : Handle
  sender : Wire M → α

/-- `Protocol<M>` (`lib.rs:66-85`) with the function-valued effector, for the
conversion-layer claims. -/
inductive FProtocol (α M : Type) where
  | Init (eff : Effector α M)
  | AddInput (h : Handle)
  | AddOutput (h : Handle)
  | Start
  | Payload (src dest : Handle) (m : M)
  | Message (src : Handle) (m : M)
  | Stop

/-- `Protocol::<M>::convert_protocol::<T>` (`lib.rs:87-130`): `f : T → M` is
the `Into` conversion applied to the carried message, `g : M → T` the inverse
conversion; `Init` rebuilds the effector around the old sender so that every
later send is translated back (`Wire.convert g`) before reaching it, and all
other constructors copy their handle fields and markers unchanged. -/
def FProtocol.convert_protocol {α M T : Type} (f : T → M) (g : M → T) :
    FProtocol α T → FProtocol α M
  | .Init eff => .Init ⟨eff.handle, fun w => eff.sender (Wire.convert g w)⟩
  | .AddInput input => .AddInput input
  | .AddOutput output => .AddOutput output
  | .Start => .Start
  | .Payload src dest m => .Payload src dest (f m)
  | .Message src m => .Message src (f m)
  | .Stop => .Stop

/-- discriminator for the `Init` constructor. -/
def FProtocol.isInit {α M : Type} : FProtocol α M → Bool
  | .Init _ => true
  | _ => false

/-- `LobeWrapper<L, M>` (`lib.rs:279`): the adapter's slot exclusively owning
one lobe value; empty (`none`) only transiently inside `update`. -/
structure LobeWrapper (L : Type) where
  slot : Option L

/-- `Node<O>::update` for `LobeWrapper<L, I>` (`lib.rs:287-300`): take the
lobe out of the slot (`mem::replace(.., None).unwrap()`, panicking — `none` —
if the slot is empty), apply the lobe's own transition `upd` to the converted
event, and put the result back.  `f : O → I` and `g : I → O` are the
conversion pair used by `Protocol::<I>::convert_protocol`. -/
def LobeWrapper.update {α L I O : Type} (upd : L → FProtocol α I → L)
    (f : O → I) (g : I → O) (w : LobeWrapper L) (msg : FProtocol α O) :
    Option (LobeWrapper L) :=
  match w.slot with
  | none => none
  | some lobe => some ⟨some (upd lobe (FProtocol.convert_protocol f g msg))⟩

/-- a sequence of adapter `update` calls, propagating the panic. -/
def LobeWrapper.updates {α L I O : Type} (upd : L → FProtocol α I → L)
    (f : O → I) (g : I → O) (w : LobeWrapper L) :
    List (FProtocol α O) → Option (LobeWrapper L)
  | [] => some w
  | msg :: rest => do
    let w' ← LobeWrapper.update upd f g w msg
    LobeWrapper.updates upd f g w' rest

/-- the impulses spawned by `Organelle::connect` (`organelle.rs:161-170`): the
synapse payload together with one endpoint of the channel pair produced by
`synapse.synapse()`. -/
inductive ConnectSend (S : Type) where
  | AddTerminal (synapse : S) (tx : ChannelId)
  | AddDendrite (synapse : S) (rx : ChannelId)
deriving DecidableEq, Repr

/-- the soma registry of `Organelle<T>` (`organelle.rs:29`): each soma's uuid
mapped to the sender of its input channel. -/
structure Organelle (S : Type) where
  somas : List (Handle × ChannelId)
deriving DecidableEq, Repr

/-- `Organelle::connect` (`organelle.rs:141-173`): look up the dendrite and
the terminal uuids, `bail!`-ing on the first unknown one before any send is
spawned; on success spawn `AddTerminal(synapse, tx)` to the dendrite's
channel and `AddDendrite(synapse, rx)` to the terminal's channel, `(tx, rx)`
being the fresh pair made by `synapse.synapse()`. -/
def Organelle.connect {S : Type} (o : Organelle S) (dendrite terminal : Handle)
    (synapse : S) (tx rx : ChannelId) :
    Except String (List (ChannelId × ConnectSend S)) :=
  match alookup o.somas dendrite with
  | none => .error "unable to find dendrite"
  | some dchan =>
    match alookup o.somas terminal with
    | none => .error "unable to find terminal"
    | some tchan =>
      .ok [(dchan, .AddTerminal synapse tx), (tchan, .AddDendrite synapse rx)]

/-- concrete pool fixture: input handle 0, output handle 1, one interior
child registered under 2. -/
def pool0 : CortexNodePool Nat := ⟨0, 1, [], [], [(2, [])]⟩

/-- concrete cortex fixture with one interior child registered under 5. -/
def cortex0 : Cortex Nat := ⟨none, 0, 1, [], ⟨0, 1, [], [], [(5, [])]⟩⟩

/-- concrete cortex fixture with no interior children. -/
def cortex1 : Cortex Nat := ⟨none, 0, 1, [], ⟨0, 1, [], [], []⟩⟩

/-- concrete driver fixture with two registered nodes. -/
def cereb0 : Cerebrum Nat := ⟨[(0, []), (1, [])]⟩

/-- concrete organelle fixture with one soma registered under 4. -/
def org0 : Organelle Nat := ⟨[(4, 40)]⟩

/-! ## Helper lemmas about the registry operations -/

theorem logAppend_keys {M : Type} (l : List (Handle × NodeLog M)) (d : Handle)
    (e : CProtocol M) : (logAppend l d e).map Prod.fst = l.map Prod.fst := by
  induction l with
  | nil => rfl
  | cons a rest ih =>
    obtain ⟨k, log⟩ := a
    by_cases hd : d = k <;> simp [logAppend, hd, ih]

theorem alookup_logAppend_isSome {M : Type} (l : List (Handle × NodeLog M))
    (d : Handle) (x : CProtocol M) (k : Handle) :
    (alookup (logAppend l d x) k).isSome = (alookup l k).isSome := by
  induction l with
  | nil => rfl
  | cons a rest ih =>
    obtain ⟨a1, a2⟩ := a
    by_cases hd : d = a1
    · by_cases hk : k = a1 <;> simp [logAppend, alookup, hd, hk]
    · by_cases hk : k = a1 <;> simp [logAppend, alookup, hd, hk, ih]

theorem alookup_map_isSome {A B : Type} (l : List (Handle × A))
    (f : Handle × A → B) (k : Handle) :
    (alookup (l.map fun p => (p.1, f p)) k).isSome = (alookup l k).isSome := by
  induction l with
  | nil => rfl
  | cons a rest ih =>
    obtain ⟨a1, a2⟩ := a
    by_cases hk : k = a1 <;> simp [alookup, hk, ih]

theorem alookup_keys_isSome {A B : Type} :
    ∀ (l1 : List (Handle × A)) (l2 : List (Handle × B)),
      l1.map Prod.fst = l2.map Prod.fst →
      ∀ k, (alookup l1 k).isSome = (alookup l2 k).isSome := by
  intro l1
  induction l1 with
  | nil =>
    intro l2 h k
    cases l2 with
    | nil => rfl
    | cons b rest2 => simp at h
  | cons a rest ih =>
    intro l2 h k
    cases l2 with
    | nil => simp at h
    | cons b rest2 =>
      obtain ⟨a1, a2⟩ := a
      obtain ⟨b1, b2⟩ := b
      simp at h
      by_cases hk : k = a1
      · simp [alookup, hk, h.1]
      · have hk2 : ¬k = b1 := h.1 ▸ hk
        simp [alookup, hk, hk2, ih rest2 h.2 k]

theorem knownPayload_logAppend {M : Type} (nodes : List (Handle × NodeLog M))
    (d : Handle) (x : CProtocol M) (e : CProtocol M) :
    knownPayload (logAppend nodes d x) e = knownPayload nodes e := by
  cases e <;> simp [knownPayload, alookup_logAppend_isSome]

theorem knownPayload_map {M : Type} (nodes : List (Handle × NodeLog M))
    (f : Handle × NodeLog M → NodeLog M) (e : CProtocol M) :
    knownPayload (nodes.map fun p => (p.1, f p)) e = knownPayload nodes e := by
  cases e <;> simp [knownPayload, alookup_map_isSome]

theorem logAppend_untouched {M : Type} (rest : List (Handle × NodeLog M))
    (d : Handle) (e : CProtocol M) (hd : d ∉ rest.map Prod.fst) :
    (rest.map fun p => (p.1, p.2 ++ if d = p.1 then [e] else [])) = rest := by
  induction rest with
  | nil => rfl
  | cons a t ih =>
    obtain ⟨k, log⟩ := a
    simp only [List.map_cons, List.mem_cons] at hd
    push_neg at hd
    simp [hd.1, ih hd.2]

theorem logAppend_eq_map {M : Type} (l : List (Handle × NodeLog M)) (d : Handle)
    (e : CProtocol M) (hnd : (l.map Prod.fst).Nodup) :
    logAppend l d e = l.map fun p => (p.1, p.2 ++ if d = p.1 then [e] else []) := by
  induction l with
  | nil => rfl
  | cons a rest ih =>
    obtain ⟨k, log⟩ := a
    simp only [List.map_cons, List.nodup_cons] at hnd
    by_cases hd : d = k
    · subst hd
      simp [logAppend, logAppend_untouched rest d e hnd.1]
    · simp [logAppend, hd, ih hnd.2]

theorem deliveries_mem {M : Type} (h : Handle) (pre : List (CProtocol M)) :
    ∀ e ∈ deliveries h pre, ∃ s m, e = CProtocol.Message s m := by
  induction pre with
  | nil => intro e he; simp [deliveries] at he
  | cons x rest ih =>
    intro e he
    cases x with
    | Payload s d m =>
      by_cases hd : d = h
      · simp [deliveries, hd] at he
        rcases he with he | he
        · exact ⟨s, m, he⟩
        · exact ih e he
      · simp [deliveries, hd] at he
        exact ih e he
    | Init eff => simp [deliveries] at he; exact ih e he
    | AddInput a => simp [deliveries] at he; exact ih e he
    | AddOutput a => simp [deliveries] at he; exact ih e he
    | Start => simp [deliveries] at he; exact ih e he
    | Message s m => simp [deliveries] at he; exact ih e he
    | Stop => simp [deliveries] at he; exact ih e he

theorem applyEvents_eq_map {M : Type} (pre : List (CProtocol M)) :
    ∀ nodes : List (Handle × NodeLog M), (nodes.map Prod.fst).Nodup →
      applyEvents nodes pre = nodes.map fun p => (p.1, p.2 ++ deliveries p.1 pre) := by
  induction pre with
  | nil =>
    intro nodes _
    simp [applyEvents, deliveries]
  | cons e rest ih =>
    intro nodes hnd
    cases e with
    | Payload s d m =>
      have hnd' : ((logAppend nodes d (.Message s m)).map Prod.fst).Nodup := by
        rw [logAppend_keys]; exact hnd
      have step : applyEvents nodes (CProtocol.Payload s d m :: rest) =
          applyEvents (logAppend nodes d (.Message s m)) rest := rfl
      rw [step, ih _ hnd', logAppend_eq_map nodes d _ hnd, List.map_map]
      apply List.map_congr_left
      intro p _
      simp only [Function.comp]
      by_cases hp : d = p.1 <;> simp [deliveries, hp]
    | Init eff => simpa [applyEvents, deliveries] using ih nodes hnd
    | AddInput a => simpa [applyEvents, deliveries] using ih nodes hnd
    | AddOutput a => simpa [applyEvents, deliveries] using ih nodes hnd
    | Start => simpa [applyEvents, deliveries] using ih nodes hnd
    | Message s m => simpa [applyEvents, deliveries] using ih nodes hnd
    | Stop => simpa [applyEvents, deliveries] using ih nodes hnd

theorem runLoop_drain {M : Type} (pre : List (CProtocol M)) :
    ∀ (nodes : List (Handle × NodeLog M)) (tail : List (CProtocol M)),
      (∀ e ∈ pre, knownPayload nodes e = true) →
      runLoop nodes (pre ++ tail) = runLoop (applyEvents nodes pre) tail := by
  induction pre with
  | nil => intro nodes tail _; rfl
  | cons e rest ih =>
    intro nodes tail hall
    have he := hall e (List.mem_cons_self e rest)
    cases e with
    | Payload s d m =>
      have hsome : (alookup nodes d).isSome = true := he
      obtain ⟨v, hv⟩ := Option.isSome_iff_exists.mp hsome
      have step : runLoop nodes ((CProtocol.Payload s d m :: rest) ++ tail) =
          runLoop (logAppend nodes d (.Message s m)) (rest ++ tail) := by
        simp [runLoop, hv]
      rw [step,
        ih (logAppend nodes d (.Message s m)) tail
          (fun e' he' => by
            rw [knownPayload_logAppend]
            exact hall e' (List.mem_cons_of_mem _ he'))]
      rfl
    | Init eff => simp [knownPayload] at he
    | AddInput a => simp [knownPayload] at he
    | AddOutput a => simp [knownPayload] at he
    | Start => simp [knownPayload] at he
    | Message s m => simp [knownPayload] at he
    | Stop => simp [knownPayload] at he

theorem alookup_applyEvents_isSome {M : Type} (pre : List (CProtocol M)) :
    ∀ (nodes : List (Handle × NodeLog M)) (k : Handle),
      (alookup (applyEvents nodes pre) k).isSome = (alookup nodes k).isSome := by
  induction pre with
  | nil => intro nodes k; rfl
  | cons e rest ih =>
    intro nodes k
    cases e with
    | Payload s d m =>
      have step : applyEvents nodes (CProtocol.Payload s d m :: rest) =
          applyEvents (logAppend nodes d (.Message s m)) rest := rfl
      rw [step, ih, alookup_logAppend_isSome]
    | Init eff => exact ih nodes k
    | AddInput a => exact ih nodes k
    | AddOutput a => exact ih nodes k
    | Start => exact ih nodes k
    | Message s m => exact ih nodes k
    | Stop => exact ih nodes k

theorem updateNode_isSome {M : Type} (nodes : CortexNodePool M) (hdl : Handle)
    (msg : CProtocol M) : (updateNode nodes hdl msg).isSome = knownHandle nodes hdl := by
  unfold updateNode knownHandle
  split_ifs
  · rfl
  · rfl
  · cases hl : alookup nodes.misc hdl <;> simp [hl]

theorem updateNode_fields {M : Type} {nodes n' : CortexNodePool M} {hdl : Handle}
    {msg : CProtocol M} (hu : updateNode nodes hdl msg = some n') :
    n'.input_hdl = nodes.input_hdl ∧ n'.output_hdl = nodes.output_hdl ∧
    n'.misc.map Prod.fst = nodes.misc.map Prod.fst := by
  unfold updateNode at hu
  split_ifs at hu
  · simp only [Option.some.injEq] at hu
    subst hu
    exact ⟨rfl, rfl, rfl⟩
  · simp only [Option.some.injEq] at hu
    subst hu
    exact ⟨rfl, rfl, rfl⟩
  · cases hl : alookup nodes.misc hdl with
    | none => rw [hl] at hu; exact absurd hu (by simp)
    | some v =>
      rw [hl] at hu
      simp only [Option.some.injEq] at hu
      subst hu
      exact ⟨rfl, rfl, logAppend_keys _ _ _⟩

theorem knownHandle_congr {M : Type} {n1 n2 : CortexNodePool M}
    (hin : n1.input_hdl = n2.input_hdl) (hout : n1.output_hdl = n2.output_hdl)
    (hkeys : n1.misc.map Prod.fst = n2.misc.map Prod.fst) (h : Handle) :
    knownHandle n1 h = knownHandle n2 h := by
  unfold knownHandle
  rw [hin, hout, alookup_keys_isSome n1.misc n2.misc hkeys h]

theorem miscInit_keys {M : Type} :
    ∀ (l : List (Handle × NodeLog M)) (fh : Handle) (ch : ChannelId),
      (miscInit fh ch l).map Prod.fst = l.map Prod.fst := by
  intro l
  induction l with
  | nil => intro fh ch; rfl
  | cons a rest ih =>
    intro fh ch
    obtain ⟨k, log⟩ := a
    simp [miscInit, ih]

theorem applyConnections_isSome_of_known {M : Type} :
    ∀ (conns : List (Handle × Handle)) (nodes : CortexNodePool M),
      (∀ p ∈ conns, knownHandle nodes p.1 = true ∧ knownHandle nodes p.2 = true) →
      (applyConnections nodes conns).isSome = true := by
  intro conns
  induction conns with
  | nil => intro nodes _; rfl
  | cons pc rest ih =>
    intro nodes hall
    obtain ⟨i, o⟩ := pc
    have h1 := (hall (i, o) (List.mem_cons_self _ _)).1
    have h2 := (hall (i, o) (List.mem_cons_self _ _)).2
    have hu1 : (updateNode nodes i (.AddOutput o)).isSome = true := by
      rw [updateNode_isSome]; exact h1
    obtain ⟨n1, hn1⟩ := Option.isSome_iff_exists.mp hu1
    obtain ⟨f1i, f1o, f1k⟩ := updateNode_fields hn1
    have h2' : knownHandle n1 o = true := by
      rw [knownHandle_congr f1i f1o f1k]; exact h2
    have hu2 : (updateNode n1 o (.AddInput i)).isSome = true := by
      rw [updateNode_isSome]; exact h2'
    obtain ⟨n2, hn2⟩ := Option.isSome_iff_exists.mp hu2
    obtain ⟨f2i, f2o, f2k⟩ := updateNode_fields hn2
    have hall' : ∀ p ∈ rest, knownHandle n2 p.1 = true ∧ knownHandle n2 p.2 = true := by
      intro p hp
      have hk := hall p (List.mem_cons_of_mem _ hp)
      refine ⟨?_, ?_⟩
      · rw [knownHandle_congr (f2i.trans f1i) (f2o.trans f1o) (f2k.trans f1k)]
        exact hk.1
      · rw [knownHandle_congr (f2i.trans f1i) (f2o.trans f1o) (f2k.trans f1k)]
        exact hk.2
    simp [applyConnections, hn1, hn2, ih n2 hall']

theorem map_fst_pairs {A B : Type} (l : List (Handle × A)) (f : Handle × A → B) :
    ((l.map fun p => (p.1, f p)).map Prod.fst) = l.map Prod.fst := by
  induction l with
  | nil => rfl
  | cons a rest ih => simp [ih]

/-! ## Claim theorems -/

/-- Claim C1: for every internal `Payload(src, dest, message)` routed by
`Cortex::forward`, the apparent source is the output child's own handle when
`src` is the output child's handle and `dest` is known internally (the input
handle, the output handle, or a registered interior handle); the composite's
own handle when `src` is the output child's handle and `dest` is not known
internally; and `src` unchanged for any other `src`. -/
theorem c1_forward_apparent_source {M : Type} (cortex : Handle)
    (nodes : CortexNodePool M) (src dest : Handle) :
    (src = nodes.output_hdl →
      ((dest = nodes.input_hdl ∨ dest = nodes.output_hdl ∨
          (alookup nodes.misc dest).isSome) →
        actual_src cortex nodes src dest = nodes.output_hdl) ∧
      (¬(dest = nodes.input_hdl ∨ dest = nodes.output_hdl ∨
          (alookup nodes.misc dest).isSome) →
        actual_src cortex nodes src dest = cortex)) ∧
    (src ≠ nodes.output_hdl → actual_src cortex nodes src dest = src) := by
  constructor
  · intro hs
    constructor
    · intro hd; simp [actual_src, hs, hd]
    · intro hd; simp [actual_src, hs, hd]
  · intro hs; simp [actual_src, hs]

/-- Witness for C1 at a concrete pool (`pool0`): output child (handle 1)
sending to the interior child 2 appears as 1; output child sending to the
unknown handle 7 appears as the cortex handle 9; the interior source 3 is
passed through unchanged. -/
theorem c1_witness :
    actual_src 9 pool0 1 2 = 1 ∧ actual_src 9 pool0 1 7 = 9 ∧
    actual_src 9 pool0 3 7 = 3 :=
  ⟨((c1_forward_apparent_source 9 pool0 1 2).1 (by decide)).1 (by decide),
   ((c1_forward_apparent_source 9 pool0 1 7).1 (by decide)).2 (by decide),
   (c1_forward_apparent_source 9 pool0 3 7).2 (by decide)⟩

/-- Claim C2: `Cortex::forward` delivers a `Payload` whose `dest` is the
input handle, the output handle, or a registered interior handle
synchronously to that child as `Message(apparent_src, message)`; a `Payload`
whose `dest` is none of these is converted to the parent's message type and
sent to the parent's channel as `Payload(apparent_src, dest, message)`; and a
`Stop` is forwarded unchanged to the parent, never swallowed. -/
theorem c2_forward_dispatch {M T : Type} (cortex : Handle)
    (nodes : CortexNodePool M) (f : M → T) (src dest : Handle) (m : M) :
    (dest = nodes.input_hdl →
      forward cortex nodes f (.Payload src dest m) =
        some ({ nodes with
          input := nodes.input ++ [.Message (actual_src cortex nodes src dest) m] }, [])) ∧
    (dest ≠ nodes.input_hdl → dest = nodes.output_hdl →
      forward cortex nodes f (.Payload src dest m) =
        some ({ nodes with
          output := nodes.output ++ [.Message (actual_src cortex nodes src dest) m] }, [])) ∧
    (dest ≠ nodes.input_hdl → dest ≠ nodes.output_hdl →
      (alookup nodes.misc dest).isSome = true →
      forward cortex nodes f (.Payload src dest m) =
        some ({ nodes with
          misc := logAppend nodes.misc dest
            (.Message (actual_src cortex nodes src dest) m) }, [])) ∧
    (dest ≠ nodes.input_hdl → dest ≠ nodes.output_hdl →
      alookup nodes.misc dest = none →
      forward cortex nodes f (.Payload src dest m) =
        some (nodes, [.Payload (actual_src cortex nodes src dest) dest (f m)])) ∧
    forward cortex nodes f (.Stop : CProtocol M) = some (nodes, [.Stop]) := by
  refine ⟨?_, ?_, ?_, ?_, rfl⟩
  · intro h1; simp [forward, h1]
  · intro h1 h2; subst h2; simp [forward, h1]
  · intro h1 h2 h3; simp [forward, h1, h2, h3]
  · intro h1 h2 h3; simp [forward, h1, h2, h3, CProtocol.convert]

/-- Witness for C2 at `pool0`: delivery to the input child, escalation of an
unknown destination to the parent, and forwarding of `Stop`. -/
theorem c2_witness :
    forward 9 pool0 (fun n : Nat => n) (CProtocol.Payload 3 0 5) =
      some ({ pool0 with
        input := pool0.input ++ [CProtocol.Message (actual_src 9 pool0 3 0) 5] }, []) ∧
    forward 9 pool0 (fun n : Nat => n) (CProtocol.Payload 1 7 5) =
      some (pool0, [CProtocol.Payload (actual_src 9 pool0 1 7) 7 ((fun n : Nat => n) 5)]) ∧
    forward 9 pool0 (fun n : Nat => n) (CProtocol.Stop : CProtocol Nat) =
      some (pool0, [CProtocol.Stop]) :=
  ⟨(c2_forward_dispatch 9 pool0 (fun n : Nat => n) 3 0 5).1 (by decide),
   (c2_forward_dispatch 9 pool0 (fun n : Nat => n) 1 7 5).2.2.2.1
     (by decide) (by decide) (by decide),
   (c2_forward_dispatch 9 pool0 (fun n : Nat => n) 1 7 5).2.2.2.2⟩

/-- Claim C3 (code-bug evidence): on `Init`, `Cortex::init` does create the
internal channel (here 100), installs its own effector over it, and binds the
input child (handle 0) and output child (handle 1) to their own registered
handles over the internal channel — but the interior child registered under
handle 5 receives an effector bound to a FRESH handle (`Handle::new_v4()`,
here 10), not its registered handle, contradicting the claim. -/
theorem c3_interior_child_init_handle :
    Cortex.init 10 100 cortex0 ⟨2, 50⟩ =
      some ⟨some ⟨2, 100⟩, 0, 1, [],
        ⟨0, 1, [CProtocol.Init ⟨0, 100⟩], [CProtocol.Init ⟨1, 100⟩],
          [(5, [CProtocol.Init ⟨10, 100⟩])]⟩⟩ ∧
    (10 : Handle) ≠ 5 := by decide

/-- Claim C4: `convert_protocol` changes only the carried message (via the
supplied conversion `f`); `Init` rewraps the capability object so that later
sends through it are first translated back (`Wire.convert g`) to the outer
message type; the handles of `AddInput` / `AddOutput`, the `src` / `dest`
handles of `Payload`, the `src` handle of `Message`, and the `Start` / `Stop`
markers are unchanged. -/
theorem c4_convert_protocol_frame {α M T : Type} (f : T → M) (g : M → T)
    (eff : Effector α T) (h src dest : Handle) (m : T) :
    FProtocol.convert_protocol (α := α) f g (.Init eff) =
      .Init ⟨eff.handle, fun w => eff.sender (Wire.convert g w)⟩ ∧
    FProtocol.convert_protocol (α := α) f g (.AddInput h) = .AddInput h ∧
    FProtocol.convert_protocol (α := α) f g (.AddOutput h) = .AddOutput h ∧
    FProtocol.convert_protocol (α := α) f g (.Start : FProtocol α T) = .Start ∧
    FProtocol.convert_protocol (α := α) f g (.Payload src dest m) =
      .Payload src dest (f m) ∧
    FProtocol.convert_protocol (α := α) f g (.Message src m) = .Message src (f m) ∧
    FProtocol.convert_protocol (α := α) f g (.Stop : FProtocol α T) = .Stop :=
  ⟨rfl, rfl, rfl, rfl, rfl, rfl, rfl⟩

/-- Claim C5: for every protocol event other than `Init`, if the two
conversion functions are mutually inverse on the carried message values,
converting with `convert_protocol` from `T` to `M` and back from `M` to `T`
reproduces the original event. -/
theorem c5_convert_roundtrip {α M T : Type} (f : T → M) (g : M → T)
    (hgf : ∀ t, g (f t) = t) (_hfg : ∀ x, f (g x) = x) (p : FProtocol α T)
    (hp : p.isInit = false) :
    FProtocol.convert_protocol g f (FProtocol.convert_protocol f g p) = p := by
  cases p <;> simp_all [FProtocol.convert_protocol, FProtocol.isInit]

/-- Witness for C5 with the identity conversion pair on `Nat` and a concrete
`Payload` event. -/
theorem c5_witness :
    FProtocol.convert_protocol (fun n : Nat => n) (fun n : Nat => n)
      (FProtocol.convert_protocol (α := Unit) (fun n : Nat => n) (fun n : Nat => n)
        (FProtocol.Payload 1 2 3)) = FProtocol.Payload 1 2 3 ∧
    (FProtocol.Payload (α := Unit) (M := Nat) 1 2 3).isInit = false :=
  ⟨c5_convert_roundtrip (fun n : Nat => n) (fun n : Nat => n)
    (fun _ => rfl) (fun _ => rfl) (FProtocol.Payload 1 2 3) rfl, rfl⟩

/-- Claim C6: `Cerebrum::run` first delivers `Start` exactly once to every
registered node, then processes the queue in arrival order — every
`Payload(src, dest, m)` before the first `Stop` is delivered to the node
registered under `dest` as `Message(src, m)` — and at the first `Stop` the
loop exits and `run` returns successfully without forwarding the `Stop` to
any node (no delivered event is a `Stop`, or another `Start`). -/
theorem c6_cerebrum_run {M : Type} (c : Cerebrum M) (pre post : List (CProtocol M))
    (hnd : (c.nodes.map Prod.fst).Nodup)
    (hpre : pre.all (knownPayload c.nodes) = true) :
    c.run (pre ++ CProtocol.Stop :: post) =
      some (c.nodes.map fun p => (p.1, p.2 ++ [CProtocol.Start] ++ deliveries p.1 pre)) ∧
    (∀ h : Handle, CProtocol.Stop ∉ deliveries h pre) ∧
    (∀ h : Handle, CProtocol.Start ∉ deliveries h pre) := by
  refine ⟨?_, ?_, ?_⟩
  · unfold Cerebrum.run
    have hnd' : (((c.nodes.map fun p => (p.1, p.2 ++ [CProtocol.Start])).map Prod.fst)).Nodup := by
      rw [map_fst_pairs]; exact hnd
    have hpre' : ∀ e ∈ pre,
        knownPayload (c.nodes.map fun p => (p.1, p.2 ++ [CProtocol.Start])) e = true := by
      intro e he
      rw [knownPayload_map]
      exact List.all_eq_true.mp hpre e he
    rw [runLoop_drain pre _ _ hpre']
    have hstep : runLoop
        (applyEvents (c.nodes.map fun p => (p.1, p.2 ++ [CProtocol.Start])) pre)
        (CProtocol.Stop :: post) =
        some (applyEvents (c.nodes.map fun p => (p.1, p.2 ++ [CProtocol.Start])) pre) := rfl
    rw [hstep, applyEvents_eq_map pre _ hnd', List.map_map]
    rfl
  · intro h hmem
    obtain ⟨s, m, heq⟩ := deliveries_mem h pre _ hmem
    exact CProtocol.noConfusion heq
  · intro h hmem
    obtain ⟨s, m, heq⟩ := deliveries_mem h pre _ hmem
    exact CProtocol.noConfusion heq

/-- Witness for C6 on the concrete driver `cereb0`: one payload then `Stop`;
both nodes get `Start` once, node 1 gets the message, nobody gets the
`Stop`. -/
theorem c6_witness :
    Cerebrum.run cereb0 ([CProtocol.Payload 0 1 7] ++ CProtocol.Stop :: []) =
      some [(0, [CProtocol.Start]), (1, [CProtocol.Start, CProtocol.Message 0 7])] ∧
    CProtocol.Stop ∉ deliveries (M := Nat) 0 [CProtocol.Payload 0 1 7] := by
  have h := c6_cerebrum_run cereb0 [CProtocol.Payload 0 1 7] [] (by decide) (by decide)
  exact ⟨h.1.trans (by decide), h.2.1 0⟩

/-- Claim C7, counterexample: both handles 5 and 7 are unknown to the
concrete cortex `cortex1`, yet `Cortex::connect` does not fail (its type has
no failure outcome) and the edge IS recorded. -/
theorem c7_counterexample :
    (knownHandle cortex1.nodes 5 = false ∧ knownHandle cortex1.nodes 7 = false) ∧
    (Cortex.connect cortex1 5 7).connections = [(5, 7)] := by decide

/-- Claim C7 as amended: `Organelle::connect` fails immediately when either
handle is unknown, before any wiring is spawned; `Cortex::connect` performs
no validation and unconditionally records the edge. -/
theorem c7_amended {S M : Type} (o : Organelle S) (dendrite terminal : Handle)
    (synapse : S) (tx rx : ChannelId) (c : Cortex M) (input output : Handle) :
    (alookup o.somas dendrite = none →
      Organelle.connect o dendrite terminal synapse tx rx =
        .error "unable to find dendrite") ∧
    (∀ dchan, alookup o.somas dendrite = some dchan →
      alookup o.somas terminal = none →
      Organelle.connect o dendrite terminal synapse tx rx =
        .error "unable to find terminal") ∧
    (Cortex.connect c input output).connections = c.connections ++ [(input, output)] := by
  refine ⟨?_, ?_, rfl⟩
  · intro hd; simp [Organelle.connect, hd]
  · intro dchan hd ht; simp [Organelle.connect, hd, ht]

/-- Witness for C7 (amended) on the concrete organelle `org0` (one soma,
uuid 4) and the concrete cortex `cortex1`. -/
theorem c7_witness :
    Organelle.connect org0 9 4 0 100 101 = .error "unable to find dendrite" ∧
    Organelle.connect org0 4 9 0 100 101 = .error "unable to find terminal" ∧
    (Cortex.connect cortex1 5 7).connections = cortex1.connections ++ [(5, 7)] :=
  ⟨(c7_amended org0 9 4 0 100 101 cortex1 5 7).1 (by decide),
   (c7_amended org0 4 9 0 100 101 cortex1 5 7).2.1 40 (by decide) (by decide),
   (c7_amended org0 4 9 0 100 101 cortex1 5 7).2.2⟩

/-- Claim C8, counterexample: delivering `Stop` to a composite through
`update` hits the `unreachable!()` arm and aborts (modelled `none`). -/
theorem c8_stop_unreachable :
    Cortex.update 10 100 cortex1 CProtocol.Stop = none := rfl

/-- Claim C8 as amended: a composite's `update` accepts `Init` (provided
every recorded connection references a known handle, and the duplicated
input/output handle fields agree as `Cortex::new` establishes), `AddInput`,
`AddOutput`, `Start` and `Message` without panicking; `Payload` and `Stop`
hit the `unreachable!()` arm and abort, and the protocol has no `Error`
event at all. -/
theorem c8_amended {M : Type} (freshH : Handle) (freshC : ChannelId) (c : Cortex M)
    (eff : CEffector) (h src : Handle) (m : M)
    (hin : c.input_hdl = c.nodes.input_hdl)
    (hout : c.output_hdl = c.nodes.output_hdl)
    (hconn : ∀ p ∈ c.connections,
      knownHandle c.nodes p.1 = true ∧ knownHandle c.nodes p.2 = true) :
    (Cortex.update freshH freshC c (.Init eff)).isSome = true ∧
    (Cortex.update freshH freshC c (.AddInput h)).isSome = true ∧
    (Cortex.update freshH freshC c (.AddOutput h)).isSome = true ∧
    (Cortex.update freshH freshC c CProtocol.Start).isSome = true ∧
    (Cortex.update freshH freshC c (.Message src m)).isSome = true ∧
    Cortex.update freshH freshC c (.Payload src h m) = none ∧
    Cortex.update freshH freshC c CProtocol.Stop = none := by
  have hki : knownHandle c.nodes c.input_hdl = true := by
    unfold knownHandle
    rw [if_pos hin]
  have hko : knownHandle c.nodes c.output_hdl = true := by
    unfold knownHandle
    by_cases hx : c.output_hdl = c.nodes.input_hdl
    · rw [if_pos hx]
    · rw [if_neg hx, if_pos hout]
  refine ⟨?_, rfl, rfl, rfl, ?_, rfl, rfl⟩
  · have hu1 : (updateNode c.nodes c.input_hdl (.Init ⟨c.input_hdl, freshC⟩)).isSome = true := by
      rw [updateNode_isSome]; exact hki
    obtain ⟨n1, hn1⟩ := Option.isSome_iff_exists.mp hu1
    obtain ⟨f1i, f1o, f1k⟩ := updateNode_fields hn1
    have hu2 : (updateNode n1 c.output_hdl (.Init ⟨c.output_hdl, freshC⟩)).isSome = true := by
      rw [updateNode_isSome, knownHandle_congr f1i f1o f1k]; exact hko
    obtain ⟨n2, hn2⟩ := Option.isSome_iff_exists.mp hu2
    obtain ⟨f2i, f2o, f2k⟩ := updateNode_fields hn2
    have hk3 : ({ n2 with misc := miscInit freshH freshC n2.misc } :
        CortexNodePool M).misc.map Prod.fst = c.nodes.misc.map Prod.fst :=
      (miscInit_keys n2.misc freshH freshC).trans (f2k.trans f1k)
    have hi3 : ({ n2 with misc := miscInit freshH freshC n2.misc } :
        CortexNodePool M).input_hdl = c.nodes.input_hdl := f2i.trans f1i
    have ho3 : ({ n2 with misc := miscInit freshH freshC n2.misc } :
        CortexNodePool M).output_hdl = c.nodes.output_hdl := f2o.trans f1o
    have hck : ∀ p ∈ c.connections,
        knownHandle { n2 with misc := miscInit freshH freshC n2.misc } p.1 = true ∧
        knownHandle { n2 with misc := miscInit freshH freshC n2.misc } p.2 = true := by
      intro p hp
      refine ⟨?_, ?_⟩
      · rw [knownHandle_congr hi3 ho3 hk3]
        exact (hconn p hp).1
      · rw [knownHandle_congr hi3 ho3 hk3]
        exact (hconn p hp).2
    obtain ⟨n4, hn4⟩ : ∃ n4,
        applyConnections { n2 with misc := miscInit freshH freshC n2.misc }
          c.connections = some n4 :=
      Option.isSome_iff_exists.mp (applyConnections_isSome_of_known _ _ hck)
    simp [Cortex.update, Cortex.init, hn1, hn2, hn4]
  · have hu : (updateNode c.nodes c.input_hdl (.Message src m)).isSome = true := by
      rw [updateNode_isSome]; exact hki
    obtain ⟨n, hn⟩ := Option.isSome_iff_exists.mp hu
    simp [Cortex.update, hn]

/-- Witness for C8 (amended) on the concrete cortex `cortex1`. -/
theorem c8_witness :
    (Cortex.update 10 100 cortex1 (.Init ⟨2, 50⟩)).isSome = true ∧
    (Cortex.update 10 100 cortex1 (.AddInput 3)).isSome = true ∧
    (Cortex.update 10 100 cortex1 (.AddOutput 3)).isSome = true ∧
    (Cortex.update 10 100 cortex1 CProtocol.Start).isSome = true ∧
    (Cortex.update 10 100 cortex1 (.Message 4 5)).isSome = true ∧
    Cortex.update 10 100 cortex1 (.Payload 4 3 5) = none ∧
    Cortex.update 10 100 cortex1 CProtocol.Stop = none :=
  c8_amended 10 100 cortex1 ⟨2, 50⟩ 3 4 5 rfl rfl
    (by intro p hp; simp [cortex1] at hp)

/-- Claim C9: the adapter's slot invariant — if the slot holds a lobe value,
then any sequence of `update` calls succeeds and leaves the slot holding a
lobe value again; the transient empty state inside the move-based transition
is never observable across `update` boundaries. -/
theorem c9_adapter_slot_invariant {α L I O : Type} (upd : L → FProtocol α I → L)
    (f : O → I) (g : I → O) (w : LobeWrapper L) (msgs : List (FProtocol α O))
    (hw : w.slot.isSome = true) :
    ∃ w' : LobeWrapper L,
      LobeWrapper.updates upd f g w msgs = some w' ∧ w'.slot.isSome = true := by
  induction msgs generalizing w with
  | nil => exact ⟨w, rfl, hw⟩
  | cons msg rest ih =>
    obtain ⟨lobe, hl⟩ := Option.isSome_iff_exists.mp hw
    obtain ⟨w', hw', hs⟩ :=
      ih (⟨some (upd lobe (FProtocol.convert_protocol f g msg))⟩ : LobeWrapper L) rfl
    exact ⟨w', by simp [LobeWrapper.updates, LobeWrapper.update, hl, hw'], hs⟩

/-- Witness for C9 with a concrete counting lobe and one `Start` event. -/
theorem c9_witness :
    ∃ w' : LobeWrapper Nat,
      LobeWrapper.updates (fun l (_ : FProtocol Unit Nat) => l + 1)
        (fun n : Nat => n) (fun n : Nat => n) ⟨some 0⟩ [FProtocol.Start] =
        some w' ∧ w'.slot.isSome = true :=
  c9_adapter_slot_invariant (fun l (_ : FProtocol Unit Nat) => l + 1)
    (fun n : Nat => n) (fun n : Nat => n) ⟨some 0⟩ [FProtocol.Start] rfl

/-- Claim C10: if the driver's event loop reaches a `Payload` whose `dest`
is not a key of the registry (after a well-formed prefix), `run` panics on
the failed lookup (`none`) — the failure is not an error return. -/
theorem c10_driver_unknown_dest_panics {M : Type} (c : Cerebrum M)
    (pre rest : List (CProtocol M)) (src dest : Handle) (m : M)
    (hpre : pre.all (knownPayload c.nodes) = true)
    (hdest : (alookup c.nodes dest).isSome = false) :
    c.run (pre ++ CProtocol.Payload src dest m :: rest) = none := by
  unfold Cerebrum.run
  have hpre' : ∀ e ∈ pre,
      knownPayload (c.nodes.map fun p => (p.1, p.2 ++ [CProtocol.Start])) e = true := by
    intro e he
    rw [knownPayload_map]
    exact List.all_eq_true.mp hpre e he
  rw [runLoop_drain pre _ _ hpre']
  have hnone : (alookup
      (applyEvents (c.nodes.map fun p => (p.1, p.2 ++ [CProtocol.Start])) pre)
      dest).isSome = false := by
    rw [alookup_applyEvents_isSome, alookup_map_isSome]
    exact hdest
  have hmatch : alookup
      (applyEvents (c.nodes.map fun p => (p.1, p.2 ++ [CProtocol.Start])) pre)
      dest = none := by
    cases hx : alookup
        (applyEvents (c.nodes.map fun p => (p.1, p.2 ++ [CProtocol.Start])) pre) dest
    · rfl
    · rw [hx] at hnone; exact absurd hnone (by simp)
  simp [runLoop, hmatch]

/-- Witness for C10 on the concrete driver `cereb0` and the unregistered
destination 5. -/
theorem c10_witness :
    Cerebrum.run cereb0 ([] ++ CProtocol.Payload 0 5 3 :: []) = none :=
  c10_driver_unknown_dest_panics cereb0 [] [] 0 5 3 (by decide) (by decide)

end Cortical
